import Mathlib

/-!
# go-common: generic repository and service layer

A shallow embedding of `dto.go`, `mapper.go`, `repository.go` and `service.go`.

* Go `int` is a 64-bit two-complement integer: values are `Int`, arithmetic wraps (`wrapInt`).
* A pointer `*T` is an `Option T` (`none` is the nil pointer); dereferencing nil, and a
  misuse of the reflect package, is the run-time panic `Outcome.fault`.
* The store handle (`*gorm.DB`) is the list of clauses requested so far together with the
  executors of the store; what the store answers is a parameter of the development.
* `encoding/json` and `mapstructure` are parameters of the functions that call them;
  `mapstructureDecode` is a model of the structural decoder on flat structs.
-/

namespace GoCommon

/-! ## Go run-time values -/

/-- A Go `error` value: a named sentinel, or an error that wraps another one. -/
inductive GoError where
  | sentinel (name : String)
  | wrapped (msg : String) (inner : GoError)
  deriving DecidableEq, Repr

/-- The sentinel `gorm.ErrRecordNotFound`. -/
def ErrRecordNotFound : GoError := GoError.sentinel "record not found"

/-- The function `errors.Is(err, target)`: `err` or an error on its unwrap chain equals `target`. -/
def errorsIs : GoError → GoError → Bool
  | GoError.sentinel n, target => decide (GoError.sentinel n = target)
  | GoError.wrapped m inner, target =>
      decide (GoError.wrapped m inner = target) || errorsIs inner target

/-- Result of running Go code that may panic. -/
inductive Outcome (α : Type) where
  | ok (a : α)
  | fault
  deriving DecidableEq, Repr

/-- Go `int`: two-complement wrap-around to 64 bits. -/
def wrapInt (x : Int) : Int := (x + 2 ^ 63) % 2 ^ 64 - 2 ^ 63

/-- Go `a * b` on `int`. -/
def intMul (a b : Int) : Int := wrapInt (a * b)

/-- Go `len(s)` of a string: its length in bytes. -/
def goLen (s : String) : Nat := s.utf8ByteSize

/-- The operation context (`context.Context`), an identifying token. -/
abbrev Context := Nat

/-! ## dto.go -/

/-- The struct `PagingQuery` of dto.go. -/
structure PagingQuery where
  Page : Int
  Size : Int
  OrderBy : Option String
  SortBy : Option String
  deriving DecidableEq, Repr

/-- The function `NewPagingQuery` of dto.go. -/
def NewPagingQuery : PagingQuery :=
  { Page := 0, Size := 25, OrderBy := none, SortBy := none }

/-- The struct `PagedResultDto` of dto.go. -/
structure PagedResultDto (Dto : Type) where
  Total : Int
  Items : List Dto
  deriving DecidableEq, Repr

/-! ## The dynamically typed options value, as the reflect package sees it -/

/-- The type `reflect.Kind`, as far as `QueryBuilder` tells kinds apart. -/
inductive Kind where
  | Invalid | String | Interface | Ptr | Slice | Map | Other
  deriving DecidableEq, Repr

/-- The dynamic value of a map key: a string of some string type, or anything else. -/
inductive GoKey where
  | str (typeName : String) (s : String)
  | other (typeName : String)
  deriving DecidableEq, Repr

/-- A `reflect.Value`. `typeName` is what `Type().String()` prints. `invalid` is the zero
Value (what `reflect.ValueOf(nil)` and `Elem()` of a nil interface or pointer give).
`iface` is a slot of interface type (a map or slice element) holding `v`. The entries of
`map` are its key/value pairs in the order `MapKeys()` yields them. -/
inductive GoValue where
  | invalid
  | str (typeName : String) (s : String)
  | iface (typeName : String) (v : GoValue)
  | ptr (typeName : String) (pointee : GoValue)
  | slice (typeName : String) (elems : List GoValue)
  | map (typeName : String) (entries : List (GoKey × GoValue))
  | other (typeName : String)

/-- The method `reflect.Value.Kind()`. -/
def GoValue.Kind : GoValue → Kind
  | GoValue.invalid => Kind.Invalid
  | GoValue.str _ _ => Kind.String
  | GoValue.iface _ _ => Kind.Interface
  | GoValue.ptr _ _ => Kind.Ptr
  | GoValue.slice _ _ => Kind.Slice
  | GoValue.map _ _ => Kind.Map
  | GoValue.other _ => Kind.Other

/-- The method `reflect.Value.Elem()`: the value inside an interface or behind a pointer; it panics on
every other kind. -/
def GoValue.Elem : GoValue → Outcome GoValue
  | GoValue.iface _ v => Outcome.ok v
  | GoValue.ptr _ v => Outcome.ok v
  | _ => Outcome.fault

/-- The method `reflect.Value.String()`: the string itself for a value of kind String, and the
placeholder `<T Value>` for a value of any other type `T`; it never panics. -/
def GoValue.String : GoValue → String
  | GoValue.invalid => "<invalid Value>"
  | GoValue.str _ s => s
  | GoValue.iface t _ => "<" ++ t ++ " Value>"
  | GoValue.ptr t _ => "<" ++ t ++ " Value>"
  | GoValue.slice t _ => "<" ++ t ++ " Value>"
  | GoValue.map t _ => "<" ++ t ++ " Value>"
  | GoValue.other t => "<" ++ t ++ " Value>"

/-- The elements `Index(0)`, ..., `Index(Len()-1)` of a value of kind Slice. -/
def GoValue.Elems : GoValue → List GoValue
  | GoValue.slice _ elems => elems
  | _ => []

/-- The pairs `(key, MapIndex(key))` of a value of kind Map, `key` running over `MapKeys()`. -/
def GoValue.MapEntries : GoValue → List (GoKey × GoValue)
  | GoValue.map _ entries => entries
  | _ => []

/-- The test `key.Interface() == name` of a `switch` over a map key: the key holds a value
of type `string` equal to `name`. -/
def GoKey.is (key : GoKey) (name : String) : Bool :=
  match key with
  | GoKey.str t s => t == "string" && s == name
  | GoKey.other _ => false

/-! ## The store handle -/

/-- One clause requested of the store handle by a chain method of `*gorm.DB`. -/
inductive Clause (F : Type) where
  | model
  | filter (f : F)
  | offset (n : Int)
  | limit (n : Int)
  | order (s : String)
  | preload (rel : String)
  | joins (rel : String)
  | withContext (ctx : Context)
  deriving DecidableEq, Repr

/-- The constant `clause.Associations`. -/
def Associations : String := "~~~as~~~"

/-- The handle `*gorm.DB`: the clauses requested so far (`Statement`) and the executors of
the store behind it, which answer a statement in a store state `S`. -/
structure GormDB (F Row S : Type) where
  Statement : List (Clause F)
  execCount : List (Clause F) → S → Except GoError Int
  execFind : List (Clause F) → S → Except GoError (List Row)
  execDelete : List (Clause F) → Option Row → S → Option GoError × S

namespace GormDB

variable {F Row S : Type}

/-- Chain method `Model(new(T))`. -/
def Model (db : GormDB F Row S) : GormDB F Row S :=
  { db with Statement := db.Statement ++ [Clause.model] }

/-- Chain method `Where(filters)`. -/
def Where (db : GormDB F Row S) (filters : F) : GormDB F Row S :=
  { db with Statement := db.Statement ++ [Clause.filter filters] }

/-- Chain method `Offset(n)`. -/
def Offset (db : GormDB F Row S) (n : Int) : GormDB F Row S :=
  { db with Statement := db.Statement ++ [Clause.offset n] }

/-- Chain method `Limit(n)`. -/
def Limit (db : GormDB F Row S) (n : Int) : GormDB F Row S :=
  { db with Statement := db.Statement ++ [Clause.limit n] }

/-- Chain method `Order(s)`. -/
def Order (db : GormDB F Row S) (s : String) : GormDB F Row S :=
  { db with Statement := db.Statement ++ [Clause.order s] }

/-- Chain method `Preload(rel)`. -/
def Preload (db : GormDB F Row S) (rel : String) : GormDB F Row S :=
  { db with Statement := db.Statement ++ [Clause.preload rel] }

/-- Chain method `Joins(rel)`. -/
def Joins (db : GormDB F Row S) (rel : String) : GormDB F Row S :=
  { db with Statement := db.Statement ++ [Clause.joins rel] }

/-- Chain method `WithContext(ctx)`. -/
def WithContext (db : GormDB F Row S) (ctx : Context) : GormDB F Row S :=
  { db with Statement := db.Statement ++ [Clause.withContext ctx] }

/-- Finisher `Count(&total)`: the store counts the rows of the statement. -/
def Count (db : GormDB F Row S) (s : S) : Except GoError Int :=
  db.execCount db.Statement s

/-- Finisher `Find(&items)`: the store returns the rows of the statement. -/
def Find (db : GormDB F Row S) (s : S) : Except GoError (List Row) :=
  db.execFind db.Statement s

/-- Finisher `Delete(t)`: the store removes the record `t`. -/
def Delete (db : GormDB F Row S) (t : Option Row) (s : S) : Option GoError × S :=
  db.execDelete db.Statement t s

end GormDB

/-! ## repository.go -/

/-- The struct `BaseRepository` of repository.go. -/
structure BaseRepository (F Row S : Type) where
  DB : GormDB F Row S

namespace BaseRepository

variable {F Row S : Type}

/-- The method `BaseRepository.QueryBuilder` of repository.go (lines 158-189). The loop over
`MapKeys()` is `QueryBuilder.keys`; `val` is `optionsVal.MapIndex(key)`. -/
def QueryBuilder (_r : BaseRepository F Row S) (query : GormDB F Row S)
    (options : GoValue) : Outcome (GormDB F Row S) :=
  let rec keys : List (GoKey × GoValue) → GormDB F Row S → Outcome (GormDB F Row S)
    | [], query => Outcome.ok query
    | (key, val) :: rest, query =>
        if key.is "preload" then
          match val.Elem with
          | Outcome.fault => Outcome.fault
          | Outcome.ok preloadVal =>
              if preloadVal.Kind = Kind.Slice then
                keys rest (preloadVal.Elems.foldl (fun q v => q.Preload v.String) query)
              else keys rest query
        else if key.is "join" then
          match val.Elem with
          | Outcome.fault => Outcome.fault
          | Outcome.ok joinVal =>
              if joinVal.Kind = Kind.Slice then
                keys rest (joinVal.Elems.foldl (fun q v => q.Joins v.String) query)
              else keys rest (query.Joins joinVal.String)
        else keys rest query
  if options.Kind ≠ Kind.Invalid then
    if options.Kind = Kind.Map then keys options.MapEntries query
    else Outcome.ok query
  else Outcome.ok query

/-- The method `BaseRepository.GetList` of repository.go (lines 38-72). The result is the triple
`(total, items, err)`. -/
def GetList (r : BaseRepository F Row S) (ctx : Context) (filters : F)
    (paging : Option PagingQuery) (s : S) : Outcome (Int × List Row × Option GoError) :=
  let query := r.DB.Model.Where filters
  match r.QueryBuilder query GoValue.invalid with
  | Outcome.fault => Outcome.fault
  | Outcome.ok _ =>
      match query.Count s with
      | Except.error e => Outcome.ok (0, [], some e)
      | Except.ok total =>
          let paged : Outcome (GormDB F Row S) :=
            match paging with
            | none => Outcome.ok query
            | some p =>
                let query := (query.Offset (intMul p.Page p.Size)).Limit p.Size
                match p.OrderBy with
                | none => Outcome.ok query
                | some orderBy =>
                    if goLen orderBy > 0 then
                      match p.SortBy with
                      | none => Outcome.fault
                      | some dir =>
                          let sortBy := if goLen dir > 0 then dir else "asc"
                          Outcome.ok (query.Order (orderBy ++ " " ++ sortBy))
                    else Outcome.ok query
          match paged with
          | Outcome.fault => Outcome.fault
          | Outcome.ok query =>
              match ((query.WithContext ctx).Preload Associations).Find s with
              | Except.error e => Outcome.ok (0, [], some e)
              | Except.ok items => Outcome.ok (total, items, none)

/-- The method `BaseRepository.GetListWithQuery` of repository.go (lines 74-106). -/
def GetListWithQuery (r : BaseRepository F Row S) (ctx : Context) (query : GormDB F Row S)
    (paging : Option PagingQuery) (s : S) : Outcome (Int × List Row × Option GoError) :=
  match r.QueryBuilder query GoValue.invalid with
  | Outcome.fault => Outcome.fault
  | Outcome.ok _ =>
      match query.Count s with
      | Except.error e => Outcome.ok (0, [], some e)
      | Except.ok total =>
          let paged : Outcome (GormDB F Row S) :=
            match paging with
            | none => Outcome.ok query
            | some p =>
                let query := (query.Offset (intMul p.Page p.Size)).Limit p.Size
                match p.OrderBy with
                | none => Outcome.ok query
                | some orderBy =>
                    if goLen orderBy > 0 then
                      match p.SortBy with
                      | none => Outcome.fault
                      | some dir =>
                          let sortBy := if goLen dir > 0 then dir else "asc"
                          Outcome.ok (query.Order (orderBy ++ " " ++ sortBy))
                    else Outcome.ok query
          match paged with
          | Outcome.fault => Outcome.fault
          | Outcome.ok query =>
              match ((query.WithContext ctx).Preload Associations).Find s with
              | Except.error e => Outcome.ok (0, [], some e)
              | Except.ok items => Outcome.ok (total, items, none)

/-- The method `BaseRepository.Delete` of repository.go (lines 144-151). -/
def Delete (r : BaseRepository F Row S) (ctx : Context) (t : Option Row) (s : S) :
    (Bool × Option GoError) × S :=
  match (r.DB.WithContext ctx).Delete t s with
  | (some e, s1) => ((false, some e), s1)
  | (none, s1) => ((true, none), s1)

end BaseRepository

/-! ## mapper.go -/

/-- The function `TypeConverter` of mapper.go. `Marshal` and `Unmarshal` are `json.Marshal` at the type
of `source` and `json.Unmarshal` into a zero value of the target type. The result is the
pair `(*T, error)`. -/
def TypeConverter {A B T : Type} (Marshal : A → Except GoError B)
    (Unmarshal : B → Except GoError T) (source : A) : Option T × Option GoError :=
  match Marshal source with
  | Except.error err => (none, some err)
  | Except.ok b =>
      match Unmarshal b with
      | Except.error err => (none, some err)
      | Except.ok result => (some result, none)

/-- Convert the elements of a sequence one after the other; the first failure is the
failure of the whole. -/
def eachInOrder {A B : Type} (f : A → Except GoError B) : List A → Except GoError (List B)
  | [] => Except.ok []
  | a :: rest =>
      match f a with
      | Except.error err => Except.error err
      | Except.ok b =>
          match eachInOrder f rest with
          | Except.error err => Except.error err
          | Except.ok bs => Except.ok (b :: bs)

/-- The package `encoding/json` at an entity type `T` and a target type `Dto`: the encoding
of one entity as a JSON document `J`, and the decoding of one document into a zero `Dto`. -/
structure Json (T Dto J : Type) where
  Marshal : T → Except GoError J
  Unmarshal : J → Except GoError Dto

namespace Json

variable {T Dto J : Type}

/-- The call `json.Marshal` of a `*T`: a nil pointer is the document `null` (`none`). -/
def MarshalPtr (j : Json T Dto J) : Option T → Except GoError (Option J)
  | none => Except.ok none
  | some t => (j.Marshal t).map some

/-- The call `json.Unmarshal` into a zero `Dto`: the document `null` leaves it zero. -/
def UnmarshalPtr [Inhabited Dto] (j : Json T Dto J) : Option J → Except GoError Dto
  | none => Except.ok default
  | some b => j.Unmarshal b

/-- The call `json.Marshal` of a `[]T`: the array of the documents of its elements, in order. -/
def MarshalSlice (j : Json T Dto J) (ts : List T) : Except GoError (List J) :=
  eachInOrder j.Marshal ts

/-- The call `json.Unmarshal` of an array into a `[]Dto`: one element per document, in order. -/
def UnmarshalSlice (j : Json T Dto J) (bs : List J) : Except GoError (List Dto) :=
  eachInOrder j.Unmarshal bs

end Json

/-- The package `mapstructure` at the types of one service: `DecodeUpdate input entity` is
`mapstructure.Decode(input, &entity)` for an `entity` of type `*T`, `DecodeDto entity dto`
is `mapstructure.Decode(entity, &dto)`; each gives the target after the call and the error. -/
structure Mapstructure (T Dto U : Type) where
  DecodeUpdate : U → Option T → Option T × Option GoError
  DecodeDto : Option T → Dto → Dto × Option GoError

/-! ## The structural decoder on flat structs

A model of `mapstructure.Decode` in its default configuration, for Go structs whose fields
are strings, ints, bools or pointers to these. The source struct is read field by field:
every exported field is read, a plain field with its value (the zero value too), a pointer
field with its pointee, a nil pointer as no value. A target field takes the value read
from the source field of the same name (or, failing that, of the same name up to letter
case); without such a field, or when no value is read, the target field is left as it is.
A value of another kind than the target field is an error and leaves the field as it is. -/

/-- A plain value of a struct field. -/
inductive Scalar where
  | str (s : String)
  | int (n : Int)
  | bool (b : Bool)
  deriving DecidableEq, Repr

/-- The kind of a plain value. -/
inductive ScalarKind where
  | str | int | bool
  deriving DecidableEq, Repr

/-- The kind of a plain value. -/
def Scalar.kind : Scalar → ScalarKind
  | Scalar.str _ => ScalarKind.str
  | Scalar.int _ => ScalarKind.int
  | Scalar.bool _ => ScalarKind.bool

/-- A field of a flat struct: a plain value, or a pointer (nil or not) to a plain value of
the given kind. -/
inductive FieldValue where
  | plain (v : Scalar)
  | ptr (kind : ScalarKind) (v : Option Scalar)
  deriving DecidableEq, Repr

/-- A flat Go struct value: its exported fields, by name, in declaration order. -/
structure GoStruct where
  fields : List (String × FieldValue)
  deriving DecidableEq, Repr

/-- The kind of value a field holds. -/
def FieldValue.kind : FieldValue → ScalarKind
  | FieldValue.plain v => v.kind
  | FieldValue.ptr k _ => k

/-- The value the decoder reads from a source field: none from a nil pointer. -/
def FieldValue.carried : FieldValue → Option Scalar
  | FieldValue.plain v => some v
  | FieldValue.ptr _ v => v

/-- Store a value in a target field: a pointer field then points to it. -/
def FieldValue.set (dst : FieldValue) (v : Scalar) : FieldValue :=
  match dst with
  | FieldValue.plain _ => FieldValue.plain v
  | FieldValue.ptr k _ => FieldValue.ptr k (some v)

/-- The default name matching of the decoder, equality up to the case of ASCII letters. -/
def matchName (key fieldName : String) : Bool :=
  key.data.map Char.toLower == fieldName.data.map Char.toLower

/-- The source field the decoder pairs with a target field name: the field of that name,
else the first field of that name up to letter case. -/
def GoStruct.sourceFor (src : GoStruct) (fieldName : String) : Option FieldValue :=
  match src.fields.lookup fieldName with
  | some v => some v
  | none => (src.fields.find? (fun kv => matchName kv.1 fieldName)).map Prod.snd

/-- Decode into one target field: the field after the call, and the error. -/
def decodeField (fieldName : String) (src : Option FieldValue) (dst : FieldValue) :
    FieldValue × Option GoError :=
  match src.bind FieldValue.carried with
  | none => (dst, none)
  | some v =>
      if v.kind = dst.kind then (dst.set v, none)
      else (dst, some (GoError.sentinel ("mapstructure: cannot decode " ++ fieldName)))

/-- Decode into the target fields one after the other; the error is the first one met. -/
def decodeFields (src : GoStruct) :
    List (String × FieldValue) → List (String × FieldValue) × Option GoError
  | [] => ([], none)
  | (name, dst) :: rest =>
      ((name, (decodeField name (src.sourceFor name) dst).1) :: (decodeFields src rest).1,
        match (decodeField name (src.sourceFor name) dst).2 with
        | some err => some err
        | none => (decodeFields src rest).2)

/-- Decode the struct `src` onto the struct `dst`: `dst` after the call, and the error. -/
def decodeStruct (src dst : GoStruct) : GoStruct × Option GoError :=
  ({ fields := (decodeFields src dst.fields).1 }, (decodeFields src dst.fields).2)

/-- The structural decoder at struct types. Decoding onto a non-nil `*T` decodes onto its
pointee; onto a nil `*T`, onto a fresh zero value `zeroEntity` that the pointer receives
when no error occurred; decoding from a nil `*T` sets nothing. -/
def mapstructureDecode (zeroEntity : GoStruct) : Mapstructure GoStruct GoStruct GoStruct :=
  { DecodeUpdate := fun input entity =>
      match entity with
      | some e => (some (decodeStruct input e).1, (decodeStruct input e).2)
      | none =>
          match decodeStruct input zeroEntity with
          | (m, none) => (some m, none)
          | (_, some err) => (none, some err)
    DecodeDto := fun entity dto =>
      match entity with
      | some e => decodeStruct e dto
      | none => (dto, none) }

/-! ## service.go -/

/-- The interface `IBaseRepository` of repository.go, the methods `BaseService` calls in `Get`, `GetList`,
`Update` and `Delete`. `R` is the state of the repository and its store. `Update` and
`Delete` receive a `*T`; `Update` also gives the pointee as the call left it. -/
structure IBaseRepository (T ID F R : Type) where
  Get : Context → ID → R → (Option T × Option GoError) × R
  GetList : Context → F → Option PagingQuery → R → (Int × List T × Option GoError) × R
  Update : Context → Option T → R → (Option T × Option GoError) × R
  Delete : Context → Option T → R → (Bool × Option GoError) × R

/-- The struct `BaseService` of service.go. -/
structure BaseService (T ID F R : Type) where
  BaseRepository : IBaseRepository T ID F R

namespace BaseService

variable {T ID F R Dto U J : Type}

/-- The method `BaseService.Get` of service.go (lines 22-36). -/
def Get [Inhabited Dto] (s : BaseService T ID F R) (json : Json T Dto J) (ctx : Context)
    (id : ID) (st : R) : (Option Dto × Option GoError) × R :=
  match s.BaseRepository.Get ctx id st with
  | ((_, some err), st1) =>
      if errorsIs err ErrRecordNotFound then ((none, none), st1)
      else ((none, some err), st1)
  | ((entity, none), st1) =>
      match TypeConverter json.MarshalPtr json.UnmarshalPtr entity with
      | (_, some err) => ((none, some err), st1)
      | (dto, none) => ((dto, none), st1)

/-- The method `BaseService.GetList` of service.go (lines 38-57). `Marshal` and `Unmarshal`
are `json.Marshal` at the type `[]T` and `json.Unmarshal` into a `[]Dto`, whatever the
library does at these types. `*dto` of a nil `dto` is a fault. -/
def GetList {B : Type} (s : BaseService T ID F R) (Marshal : List T → Except GoError B)
    (Unmarshal : B → Except GoError (List Dto)) (ctx : Context) (input : F)
    (query : Option PagingQuery) (st : R) :
    Outcome ((PagedResultDto Dto × Option GoError) × R) :=
  let rs : PagedResultDto Dto := { Total := 0, Items := [] }
  match s.BaseRepository.GetList ctx input query st with
  | ((_, _, some err), st1) => Outcome.ok ((rs, some err), st1)
  | ((total, entities, none), st1) =>
      let rs := { rs with Total := total }
      if entities.length > 0 then
        match TypeConverter Marshal Unmarshal entities with
        | (_, some err) => Outcome.ok ((rs, some err), st1)
        | (none, none) => Outcome.fault
        | (some dto, none) => Outcome.ok (({ rs with Items := dto }, none), st1)
      else Outcome.ok ((rs, none), st1)

/-- The method `BaseService.Update` of service.go (lines 77-97). -/
def Update [Inhabited Dto] (s : BaseService T ID F R) (ms : Mapstructure T Dto U)
    (ctx : Context) (id : ID) (input : U) (st : R) : (Dto × Option GoError) × R :=
  let dto : Dto := default
  match s.BaseRepository.Get ctx id st with
  | ((_, some err), st1) => ((dto, some err), st1)
  | ((entity, none), st1) =>
      match ms.DecodeUpdate input entity with
      | (_, some err) => ((dto, some err), st1)
      | (entity, none) =>
          match s.BaseRepository.Update ctx entity st1 with
          | ((_, some err), st2) => ((dto, some err), st2)
          | ((entity, none), st2) =>
              match ms.DecodeDto entity dto with
              | (dto, some err) => ((dto, some err), st2)
              | (dto, none) => ((dto, none), st2)

/-- The method `BaseService.Delete` of service.go (lines 99-113). -/
def Delete (s : BaseService T ID F R) (ctx : Context) (id : ID) (st : R) :
    (Bool × Option GoError) × R :=
  match s.BaseRepository.Get ctx id st with
  | ((_, some err), st1) =>
      if errorsIs err ErrRecordNotFound then ((false, none), st1)
      else ((false, some err), st1)
  | ((entity, none), st1) =>
      match s.BaseRepository.Delete ctx entity st1 with
      | ((_, some err), st2) => ((false, some err), st2)
      | ((_, none), st2) => ((true, none), st2)

end BaseService

/-! ## Observing the calls a service makes -/

/-- One call received by a repository. -/
inductive Call (T ID F : Type) where
  | Get (id : ID)
  | GetList (filters : F) (paging : Option PagingQuery)
  | Update (t : Option T)
  | Delete (t : Option T)
  deriving DecidableEq, Repr

/-- The repository `repo` with a journal: every call is appended to the list carried next
to the state of `repo`, and answered by `repo`. -/
def IBaseRepository.recording {T ID F R : Type} (repo : IBaseRepository T ID F R) :
    IBaseRepository T ID F (R × List (Call T ID F)) :=
  { Get := fun ctx id st =>
      ((repo.Get ctx id st.1).1, ((repo.Get ctx id st.1).2, st.2 ++ [Call.Get id]))
    GetList := fun ctx f p st =>
      ((repo.GetList ctx f p st.1).1,
        ((repo.GetList ctx f p st.1).2, st.2 ++ [Call.GetList f p]))
    Update := fun ctx t st =>
      ((repo.Update ctx t st.1).1, ((repo.Update ctx t st.1).2, st.2 ++ [Call.Update t]))
    Delete := fun ctx t st =>
      ((repo.Delete ctx t st.1).1, ((repo.Delete ctx t st.1).2, st.2 ++ [Call.Delete t])) }

/-- The service over the journalled repository. -/
def BaseService.recording {T ID F R : Type} (s : BaseService T ID F R) :
    BaseService T ID F (R × List (Call T ID F)) :=
  { BaseRepository := s.BaseRepository.recording }

/-! ## A reference store: one table held in memory

The relational reading of a statement, used where a claim speaks of the rows a query
returns: the rows that satisfy every filter, in the requested order, after skipping the
offset, cut at the limit. -/

/-- The filters of a statement. -/
def filtersOf {F : Type} (stmt : List (Clause F)) : List F :=
  stmt.filterMap (fun c => match c with
    | Clause.filter f => some f
    | _ => none)

/-- The order clauses of a statement. -/
def ordersOf {F : Type} (stmt : List (Clause F)) : List String :=
  stmt.filterMap (fun c => match c with
    | Clause.order o => some o
    | _ => none)

/-- The offset of a statement: the one requested last. -/
def offsetOf {F : Type} (stmt : List (Clause F)) : Option Int :=
  (stmt.filterMap (fun c => match c with
    | Clause.offset n => some n
    | _ => none)).getLast?

/-- The limit of a statement: the one requested last. -/
def limitOf {F : Type} (stmt : List (Clause F)) : Option Int :=
  (stmt.filterMap (fun c => match c with
    | Clause.limit n => some n
    | _ => none)).getLast?

/-- The rows of the table that satisfy every filter of the statement. -/
def matching {F Row : Type} (sat : F → Row → Bool) (stmt : List (Clause F))
    (rows : List Row) : List Row :=
  rows.filter (fun r => (filtersOf stmt).all (fun f => sat f r))

/-- The rows in the order the statement asks for: table order without an order clause. -/
def ordered {Row : Type} (sortRows : List String → List Row → List Row)
    (orders : List String) (rows : List Row) : List Row :=
  if orders = [] then rows else sortRows orders rows

/-- Skip the offset: a positive offset skips that many rows, any other skips none. -/
def skipRows {Row : Type} (offset : Option Int) (rows : List Row) : List Row :=
  match offset with
  | some n => if 0 < n then rows.drop n.toNat else rows
  | none => rows

/-- Cut at the limit: a positive limit keeps that many rows. -/
def cutRows {Row : Type} (limit : Option Int) (rows : List Row) : List Row :=
  match limit with
  | some n => if 0 < n then rows.take n.toNat else rows
  | none => rows

/-- The table store: its state is the list of rows of the table; `sat` evaluates a filter
on a row and `sortRows` sorts by the order clauses; a delete removes the record. No
statement fails. -/
def tableStore {F Row : Type} [DecidableEq Row] (sat : F → Row → Bool)
    (sortRows : List String → List Row → List Row) : GormDB F Row (List Row) :=
  { Statement := []
    execCount := fun stmt rows => Except.ok ((matching sat stmt rows).length : Int)
    execFind := fun stmt rows =>
      Except.ok (cutRows (limitOf stmt) (skipRows (offsetOf stmt)
        (ordered sortRows (ordersOf stmt) (matching sat stmt rows))))
    execDelete := fun _ t rows =>
      match t with
      | some row => (none, rows.erase row)
      | none => (none, rows) }

/-! ## Statement helpers and concrete inputs -/

/-- Lines 64-71 of `GetList`: the result for a count `total` and the store's answer to
`Find`. -/
def listResult {Row : Type} (total : Int) (found : Except GoError (List Row)) :
    Outcome (Int × List Row × Option GoError) :=
  match found with
  | Except.error e => Outcome.ok (0, [], some e)
  | Except.ok items => Outcome.ok (total, items, none)

/-- A repository over a table of numbers: every row satisfies the filter, and an order
clause reverses the table. -/
def numberRepo : BaseRepository Unit Nat (List Nat) :=
  { DB := tableStore (fun _ _ => true) (fun _ rows => rows.reverse) }

/-- A paging query with a sort field and no sort direction. -/
def pagingNoDirection : PagingQuery :=
  { Page := 0, Size := 25, OrderBy := some "name", SortBy := none }

/-- A paging query with a sort field and a sort direction. -/
def pagingSorted : PagingQuery :=
  { Page := 1, Size := 2, OrderBy := some "name", SortBy := some "desc" }

/-- The second page of the default size. -/
def pagingSecond : PagingQuery :=
  { Page := 1, Size := 25, OrderBy := none, SortBy := none }

/-- A paging query whose `Page * Size` is `2 ^ 64`. -/
def pagingWrapped : PagingQuery :=
  { Page := 4611686018427387904, Size := 4, OrderBy := none, SortBy := none }

/-- Run `g` on the result of a computation that did not fault. -/
def Outcome.bind {A B : Type} (x : Outcome A) (g : A → Outcome B) : Outcome B :=
  match x with
  | Outcome.ok a => g a
  | Outcome.fault => Outcome.fault

/-- The options `map[string]interface{}{"preload": []string{names...}}`. -/
def preloadOptions (names : List String) : GoValue :=
  GoValue.map "map[string]interface \x7b\x7d"
    [(GoKey.str "string" "preload",
      GoValue.iface "interface \x7b\x7d"
        (GoValue.slice "[]string" (names.map (GoValue.str "string"))))]

/-- The options `map[string]interface{}{"join": []string{names...}}`. -/
def joinOptions (names : List String) : GoValue :=
  GoValue.map "map[string]interface \x7b\x7d"
    [(GoKey.str "string" "join",
      GoValue.iface "interface \x7b\x7d"
        (GoValue.slice "[]string" (names.map (GoValue.str "string"))))]

/-- The options `map[string]interface{}{"preload": []interface{}{"A"}}`: the sequence of
names is a slice of interface values, as a decoded JSON array is. -/
def preloadAnyOptions : GoValue :=
  GoValue.map "map[string]interface \x7b\x7d"
    [(GoKey.str "string" "preload",
      GoValue.iface "interface \x7b\x7d"
        (GoValue.slice "[]interface \x7b\x7d"
          [GoValue.iface "interface \x7b\x7d" (GoValue.str "string" "A")]))]

/-- The options `map[string][]string{"preload": {"A"}}`: a map whose values are slices. -/
def preloadTypedOptions : GoValue :=
  GoValue.map "map[string][]string"
    [(GoKey.str "string" "preload", GoValue.slice "[]string" [GoValue.str "string" "A"])]

/-- The name string a caller supplied as one element or value: the string, also when it
sits in an interface slot. -/
def suppliedName : GoValue → Option String
  | GoValue.str _ s => some s
  | GoValue.iface _ (GoValue.str _ s) => some s
  | _ => none

/-- The names supplied as the elements of a sequence, if every element is a name. -/
def suppliedNameList : List GoValue → Option (List String)
  | [] => some []
  | v :: rest =>
      match suppliedName v, suppliedNameList rest with
      | some name, some names => some (name :: names)
      | _, _ => none

/-- The names of a value that is a sequence of relation names. -/
def suppliedNames : GoValue → Option (List String)
  | GoValue.slice _ elems => suppliedNameList elems
  | GoValue.iface _ (GoValue.slice _ elems) => suppliedNameList elems
  | _ => none

/-- The reference of claim C7 for `QueryBuilder`, in its words: options that are nil or
not a map leave the query unchanged; in a map, key `preload` with a sequence of relation
names adds one `Preload` per name, key `join` with a sequence adds one `Joins` per name and
with a single relation name exactly one `Joins`; every other key adds nothing. -/
def QueryBuilderReference {F Row S : Type} (query : GormDB F Row S) (options : GoValue) :
    GormDB F Row S :=
  match options with
  | GoValue.map _ entries =>
      entries.foldl (fun q entry =>
        if entry.1.is "preload" then
          match suppliedNames entry.2 with
          | some names => names.foldl GormDB.Preload q
          | none => q
        else if entry.1.is "join" then
          match suppliedNames entry.2 with
          | some names => names.foldl GormDB.Joins q
          | none =>
              match suppliedName entry.2 with
              | some name => q.Joins name
              | none => q
        else q) query
  | _ => query

/-- An entity with the fields of the update scenario. -/
structure User where
  id : String
  name : String
  status : String
  deriving DecidableEq, Repr, Inhabited

/-- JSON at `User`: the document of a user is the user. -/
def userJson : Json User User User :=
  { Marshal := fun e => Except.ok e
    Unmarshal := fun b => Except.ok b }

/-- A repository of users held in a list. `Get` of an unknown id gives the zero entity and
`ErrRecordNotFound`, as `BaseRepository.Get` does. -/
def userRepo : IBaseRepository User String Unit (List User) :=
  { Get := fun _ id st =>
      match st.find? (fun e => e.id == id) with
      | some e => ((some e, none), st)
      | none => ((some default, some ErrRecordNotFound), st)
    GetList := fun _ _ _ st => (((st.length : Int), st, none), st)
    Update := fun _ t st =>
      match t with
      | some e => ((some e, none), st.map (fun x => if x.id == e.id then e else x))
      | none => ((none, some (GoError.sentinel "invalid value")), st)
    Delete := fun _ t st =>
      match t with
      | some e => ((true, none), st.filter (fun x => x.id != e.id))
      | none => ((false, some (GoError.sentinel "invalid value")), st) }

/-- A `json.Marshal` that fails on every input. -/
def failingMarshal : List User → Except GoError (List User) :=
  fun _ => Except.error (GoError.sentinel "json: unsupported value")

/-- A repository whose `Delete` reports `(false, nil)`: nothing removed, no error. -/
def idleDeleteRepo : IBaseRepository User String Unit (List User) :=
  { userRepo with Delete := fun _ _ st => ((false, none), st) }

/-- The stored user of the update scenario. -/
def storedUser : User := { id := "7", name := "x", status := "active" }

/-- The stored entity `{id, name: "x", status: "active"}` as a struct. -/
def storedRecord : GoStruct :=
  { fields := [("ID", FieldValue.plain (Scalar.str "7")),
      ("Name", FieldValue.plain (Scalar.str "x")),
      ("Status", FieldValue.plain (Scalar.str "active"))] }

/-- The merged entity `{id, name: "y", status: "active"}`. -/
def renamedRecord : GoStruct :=
  { fields := [("ID", FieldValue.plain (Scalar.str "7")),
      ("Name", FieldValue.plain (Scalar.str "y")),
      ("Status", FieldValue.plain (Scalar.str "active"))] }

/-- The zero value of the entity and Dto type of `storedRecord`. -/
def zeroRecord : GoStruct :=
  { fields := [("ID", FieldValue.plain (Scalar.str "")),
      ("Name", FieldValue.plain (Scalar.str "")),
      ("Status", FieldValue.plain (Scalar.str ""))] }

/-- The update `{name: "y"}` of an UpdateDto with pointer fields `Name` and `Status`:
`Status` is nil. -/
def renamePointers : GoStruct :=
  { fields := [("Name", FieldValue.ptr ScalarKind.str (some (Scalar.str "y"))),
      ("Status", FieldValue.ptr ScalarKind.str none)] }

/-- The update `{name: "y"}` of an UpdateDto with plain fields `Name` and `Status`:
`Status` is left unset, so it holds its zero value. -/
def renamePlain : GoStruct :=
  { fields := [("Name", FieldValue.plain (Scalar.str "y")),
      ("Status", FieldValue.plain (Scalar.str ""))] }

/-- An update whose `Name` is an int, for an entity whose `Name` is a string. -/
def renameMistyped : GoStruct :=
  { fields := [("Name", FieldValue.plain (Scalar.int 5))] }

/-- A repository of structs held in a list, looked up by the field `ID`. -/
def recordRepo : IBaseRepository GoStruct String Unit (List GoStruct) :=
  { Get := fun _ id st =>
      match st.find? (fun e =>
        e.fields.lookup "ID" == some (FieldValue.plain (Scalar.str id))) with
      | some e => ((some e, none), st)
      | none => ((some zeroRecord, some ErrRecordNotFound), st)
    GetList := fun _ _ _ st => (((st.length : Int), st, none), st)
    Update := fun _ t st =>
      match t with
      | some e =>
          ((some e, none),
            st.map (fun x => if x.fields.lookup "ID" == e.fields.lookup "ID" then e else x))
      | none => ((none, some (GoError.sentinel "invalid value")), st)
    Delete := fun _ t st =>
      match t with
      | some e =>
          ((true, none), st.filter (fun x => x.fields.lookup "ID" != e.fields.lookup "ID"))
      | none => ((false, some (GoError.sentinel "invalid value")), st) }

/-- Run `BaseService.Update` for id `7` over the journalled `recordRepo` holding
`storedRecord`, with the zero Dto `zeroRecord`: the Dto and error returned, the store
after the call, and the journal. -/
def updateStored (input : GoStruct) :
    (GoStruct × Option GoError) × (List GoStruct × List (Call GoStruct String Unit)) :=
  @BaseService.Update GoStruct String Unit (List GoStruct × List (Call GoStruct String Unit))
    GoStruct GoStruct ⟨zeroRecord⟩ (BaseService.recording { BaseRepository := recordRepo })
    (mapstructureDecode zeroRecord) 0 "7" input ([storedRecord], [])

/-! ## Arithmetic and strings -/

theorem wrapInt_of_fits (x : Int) (hlo : -(2 ^ 63) ≤ x) (hhi : x < 2 ^ 63) : wrapInt x = x := by
  unfold wrapInt
  have h63 : (2 : Int) ^ 63 = 9223372036854775808 := by norm_num
  have h64 : (2 : Int) ^ 64 = 18446744073709551616 := by norm_num
  rw [h63] at hlo hhi
  rw [h63, h64]
  omega

theorem goLen_pos_iff (s : String) : 0 < goLen s ↔ s ≠ "" := by
  rcases s with ⟨cs⟩
  cases cs with
  | nil => simp [goLen, String.utf8ByteSize, String.utf8ByteSize.go]
  | cons c cs =>
      have hc := Char.utf8Size_pos c
      constructor
      · intro _ h
        exact absurd (congrArg String.data h) (by simp)
      · intro _
        simp only [goLen, String.utf8ByteSize, String.utf8ByteSize.go]
        omega

/-! ## The statement GetList hands to Find -/

theorem getList_unpaged {F Row S : Type} (r : BaseRepository F Row S) (ctx : Context)
    (f : F) (s : S) (total : Int)
    (hcount : (r.DB.Model.Where f).Count s = Except.ok total) :
    r.GetList ctx f none s =
      listResult total (r.DB.execFind
        (r.DB.Statement ++ [Clause.model, Clause.filter f]
          ++ [Clause.withContext ctx, Clause.preload Associations]) s) := by
  simp only [BaseRepository.GetList, hcount]
  simp [BaseRepository.QueryBuilder, GoValue.Kind,
    GormDB.Find, GormDB.Preload, GormDB.WithContext, GormDB.Where, GormDB.Model, listResult]

theorem getList_paged_unsorted {F Row S : Type} (r : BaseRepository F Row S) (ctx : Context)
    (f : F) (s : S) (total : Int)
    (hcount : (r.DB.Model.Where f).Count s = Except.ok total) (p : PagingQuery)
    (hp : p.OrderBy = none ∨ p.OrderBy = some "") :
    r.GetList ctx f (some p) s =
      listResult total (r.DB.execFind
        (r.DB.Statement ++ [Clause.model, Clause.filter f]
          ++ [Clause.offset (intMul p.Page p.Size), Clause.limit p.Size]
          ++ [Clause.withContext ctx, Clause.preload Associations]) s) := by
  have h0 : goLen "" = 0 := by decide
  rcases hp with hp | hp
  · simp only [BaseRepository.GetList, hcount]
    simp [BaseRepository.QueryBuilder, GoValue.Kind, hp,
      GormDB.Find, GormDB.Preload, GormDB.WithContext, GormDB.Where, GormDB.Model,
      GormDB.Offset, GormDB.Limit, listResult]
  · simp only [BaseRepository.GetList, hcount]
    simp [BaseRepository.QueryBuilder, GoValue.Kind, hp, h0,
      GormDB.Find, GormDB.Preload, GormDB.WithContext, GormDB.Where, GormDB.Model,
      GormDB.Offset, GormDB.Limit, listResult]

theorem getList_paged_sorted {F Row S : Type} (r : BaseRepository F Row S) (ctx : Context)
    (f : F) (s : S) (total : Int)
    (hcount : (r.DB.Model.Where f).Count s = Except.ok total) (p : PagingQuery)
    (field dir : String) (hf : p.OrderBy = some field) (hne : field ≠ "")
    (hd : p.SortBy = some dir) :
    r.GetList ctx f (some p) s =
      listResult total (r.DB.execFind
        (r.DB.Statement ++ [Clause.model, Clause.filter f]
          ++ [Clause.offset (intMul p.Page p.Size), Clause.limit p.Size,
              Clause.order (field ++ " " ++ (if dir = "" then "asc" else dir))]
          ++ [Clause.withContext ctx, Clause.preload Associations]) s) := by
  have h1 : 0 < goLen field := (goLen_pos_iff field).2 hne
  by_cases hdir : dir = ""
  · have h0 : goLen "" = 0 := by decide
    subst hdir
    simp only [BaseRepository.GetList, hcount]
    simp [BaseRepository.QueryBuilder, GoValue.Kind, hf, hd, h1, h0, GormDB.Find,
      GormDB.Preload, GormDB.WithContext, GormDB.Where, GormDB.Model, GormDB.Offset,
      GormDB.Limit, GormDB.Order, listResult]
  · have h2 : 0 < goLen dir := (goLen_pos_iff dir).2 hdir
    simp only [BaseRepository.GetList, hcount]
    simp [BaseRepository.QueryBuilder, GoValue.Kind, hf, hd, h1, h2, hdir, GormDB.Find,
      GormDB.Preload, GormDB.WithContext, GormDB.Where, GormDB.Model, GormDB.Offset,
      GormDB.Limit, GormDB.Order, listResult]

theorem getList_nil_direction {F Row S : Type} (r : BaseRepository F Row S) (ctx : Context)
    (f : F) (s : S) (total : Int)
    (hcount : (r.DB.Model.Where f).Count s = Except.ok total) (p : PagingQuery)
    (field : String) (hf : p.OrderBy = some field) (hne : field ≠ "")
    (hd : p.SortBy = none) :
    r.GetList ctx f (some p) s = Outcome.fault := by
  have h1 : 0 < goLen field := (goLen_pos_iff field).2 hne
  simp only [BaseRepository.GetList, hcount]
  simp [BaseRepository.QueryBuilder, GoValue.Kind, hf, hd, h1]

/-! ## repository.go: GetList and GetListWithQuery -/

/-- C10. For every filter, paging value (nil or not) and store state, `GetList` gives the
same outcome, the triple `(total, items, error)` or the fault, as `GetListWithQuery` on the
query `GetList` builds from the filter: the handle bound to the model and filtered. -/
theorem C10_getlist_is_getlistwithquery {F Row S : Type} (r : BaseRepository F Row S)
    (ctx : Context) (f : F) (p : Option PagingQuery) (s : S) :
    r.GetList ctx f p s = r.GetListWithQuery ctx (r.DB.Model.Where f) p s := by
  rfl

/-- C3, at the failing input. With a sort field `name` and a nil sort direction, both
`GetList` and `GetListWithQuery` fault as soon as the count has succeeded, for every
repository, filter, prepared query and store state: no order clause is applied. -/
theorem C3_nil_direction_faults {F Row S : Type} (r : BaseRepository F Row S)
    (ctx : Context) (f : F) (q : GormDB F Row S) (s : S) :
    r.GetList ctx f (some pagingNoDirection) s =
        (match (r.DB.Model.Where f).Count s with
          | Except.error e => Outcome.ok (0, [], some e)
          | Except.ok _ => Outcome.fault) ∧
      r.GetListWithQuery ctx q (some pagingNoDirection) s =
        (match q.Count s with
          | Except.error e => Outcome.ok (0, [], some e)
          | Except.ok _ => Outcome.fault) := by
  have hlen : goLen "name" > 0 := by decide
  constructor
  · simp only [BaseRepository.GetList, BaseRepository.QueryBuilder, GoValue.Kind,
      pagingNoDirection]
    cases (r.DB.Model.Where f).Count s <;> simp [hlen]
  · simp only [BaseRepository.GetListWithQuery, BaseRepository.QueryBuilder, GoValue.Kind,
      pagingNoDirection]
    cases q.Count s <;> simp [hlen]

/-- C2. In `GetList`, once the count has succeeded with `total`, the statement handed to
`Find` is the filtered model query followed by: nothing when paging is nil; the offset
`Page * Size` (Go `int` product) and the limit `Size` when paging is given, followed by
exactly one order clause `<sortField> <sortDirection>` when the sort field is present and
non-empty and the direction is a non-empty string, and by no order clause when the sort
field is absent or empty. (Then come the context and the preload of all associations.) -/
theorem C2_getlist_clauses {F Row S : Type} (r : BaseRepository F Row S) (ctx : Context)
    (f : F) (s : S) (total : Int)
    (hcount : (r.DB.Model.Where f).Count s = Except.ok total) :
    r.GetList ctx f none s =
        listResult total (r.DB.execFind
          (r.DB.Statement ++ [Clause.model, Clause.filter f]
            ++ [Clause.withContext ctx, Clause.preload Associations]) s) ∧
      (∀ (p : PagingQuery) (field dir : String),
        p.OrderBy = some field → field ≠ "" → p.SortBy = some dir → dir ≠ "" →
        r.GetList ctx f (some p) s =
          listResult total (r.DB.execFind
            (r.DB.Statement ++ [Clause.model, Clause.filter f]
              ++ [Clause.offset (intMul p.Page p.Size), Clause.limit p.Size,
                  Clause.order (field ++ " " ++ dir)]
              ++ [Clause.withContext ctx, Clause.preload Associations]) s)) ∧
      (∀ p : PagingQuery, p.OrderBy = none ∨ p.OrderBy = some "" →
        r.GetList ctx f (some p) s =
          listResult total (r.DB.execFind
            (r.DB.Statement ++ [Clause.model, Clause.filter f]
              ++ [Clause.offset (intMul p.Page p.Size), Clause.limit p.Size]
              ++ [Clause.withContext ctx, Clause.preload Associations]) s)) ∧
      (∀ p : PagingQuery, -(2 ^ 63) ≤ p.Page * p.Size → p.Page * p.Size < 2 ^ 63 →
        intMul p.Page p.Size = p.Page * p.Size) := by
  refine ⟨getList_unpaged r ctx f s total hcount, ?_,
    fun p hp => getList_paged_unsorted r ctx f s total hcount p hp,
    fun p hlo hhi => wrapInt_of_fits _ hlo hhi⟩
  intro p field dir hf hne hd hdne
  have h := getList_paged_sorted r ctx f s total hcount p field dir hf hne hd
  rwa [if_neg hdne] at h

/-- C2, on the table of numbers `[1, 2, 3]` with page 1 of size 2 sorted by `name desc`. -/
theorem C2_getlist_clauses_witness :
    (numberRepo.DB.Model.Where ()).Count [1, 2, 3] = Except.ok 3 ∧
      numberRepo.GetList 0 () (some pagingSorted) [1, 2, 3] =
        listResult 3 (numberRepo.DB.execFind
          (numberRepo.DB.Statement ++ [Clause.model, Clause.filter ()]
            ++ [Clause.offset (intMul pagingSorted.Page pagingSorted.Size),
                Clause.limit pagingSorted.Size, Clause.order ("name" ++ " " ++ "desc")]
            ++ [Clause.withContext 0, Clause.preload Associations]) [1, 2, 3]) :=
  ⟨rfl,
    (C2_getlist_clauses numberRepo 0 () [1, 2, 3] 3 rfl).2.1 pagingSorted "name" "desc"
      rfl (by decide) rfl (by decide)⟩

/-- With a sort field and an empty (non-nil) sort direction, `GetList` and
`GetListWithQuery` order by `<sortField> asc`. -/
theorem empty_direction_defaults_to_asc {F Row S : Type} (r : BaseRepository F Row S)
    (ctx : Context) (f : F) (q : GormDB F Row S) (s : S) (total : Int) (p : PagingQuery)
    (field : String) (hf : p.OrderBy = some field) (hne : field ≠ "")
    (hd : p.SortBy = some "") :
    ((r.DB.Model.Where f).Count s = Except.ok total →
        r.GetList ctx f (some p) s =
          listResult total (r.DB.execFind
            (r.DB.Statement ++ [Clause.model, Clause.filter f]
              ++ [Clause.offset (intMul p.Page p.Size), Clause.limit p.Size,
                  Clause.order (field ++ " " ++ "asc")]
              ++ [Clause.withContext ctx, Clause.preload Associations]) s)) ∧
      (q.Count s = Except.ok total →
        r.GetListWithQuery ctx q (some p) s =
          listResult total (q.execFind
            (q.Statement
              ++ [Clause.offset (intMul p.Page p.Size), Clause.limit p.Size,
                  Clause.order (field ++ " " ++ "asc")]
              ++ [Clause.withContext ctx, Clause.preload Associations]) s)) := by
  have h1 : 0 < goLen field := (goLen_pos_iff field).2 hne
  have h0 : goLen "" = 0 := by decide
  constructor
  · intro hcount
    simp only [BaseRepository.GetList, hcount]
    simp [BaseRepository.QueryBuilder, GoValue.Kind, hf, hd, h1, h0, GormDB.Find,
      GormDB.Preload, GormDB.WithContext, GormDB.Where, GormDB.Model, GormDB.Offset,
      GormDB.Limit, GormDB.Order, listResult]
  · intro hcount
    simp only [BaseRepository.GetListWithQuery, hcount]
    simp [BaseRepository.QueryBuilder, GoValue.Kind, hf, hd, h1, h0, GormDB.Find,
      GormDB.Preload, GormDB.WithContext, GormDB.Offset, GormDB.Limit, GormDB.Order,
      listResult]

/-! ## GetList over the table store -/

theorem skipRows_of_nonneg {Row : Type} (n : Int) (hn : 0 ≤ n) (rows : List Row) :
    skipRows (some n) rows = rows.drop n.toNat := by
  unfold skipRows
  by_cases h : 0 < n
  · simp [h]
  · have h0 : n = 0 := by omega
    simp [h0]

theorem cutRows_of_pos {Row : Type} (n : Int) (hn : 0 < n) (rows : List Row) :
    cutRows (some n) rows = rows.take n.toNat := by
  simp [cutRows, hn]

theorem matching_single {F Row : Type} (sat : F → Row → Bool) (f : F)
    (pre post : List (Clause F)) (hpre : filtersOf pre = []) (hpost : filtersOf post = [])
    (rows : List Row) :
    matching sat (pre ++ Clause.filter f :: post) rows = rows.filter (sat f) := by
  unfold matching
  have hfs : filtersOf (pre ++ Clause.filter f :: post) = [f] := by
    unfold filtersOf at *
    simp [List.filterMap_append, List.filterMap_cons, hpre, hpost]
  rw [hfs]
  simp

theorem getList_tableStore {F Row : Type} [DecidableEq Row] (sat : F → Row → Bool)
    (sortRows : List String → List Row → List Row) (ctx : Context) (f : F)
    (rows : List Row) (p : PagingQuery) (hsize : 0 < p.Size) (orders : List String)
    (horders : orders = [] ∨ ∃ o, orders = [o])
    (hpaged : ∀ (S : Type) (r : BaseRepository F Row S) (s : S) (total : Int),
      (r.DB.Model.Where f).Count s = Except.ok total →
      r.GetList ctx f (some p) s =
        listResult total (r.DB.execFind
          (r.DB.Statement ++ [Clause.model, Clause.filter f]
            ++ ([Clause.offset (intMul p.Page p.Size), Clause.limit p.Size]
              ++ orders.map Clause.order)
            ++ [Clause.withContext ctx, Clause.preload Associations]) s)) :
    BaseRepository.GetList { DB := tableStore sat sortRows } ctx f (some p) rows =
      Outcome.ok (((rows.filter (sat f)).length : Int),
        (skipRows (some (intMul p.Page p.Size))
          (ordered sortRows orders (rows.filter (sat f)))).take p.Size.toNat, none) := by
  have hm : ∀ post : List (Clause F), filtersOf post = [] →
      matching sat ([Clause.model] ++ Clause.filter f :: post) rows = rows.filter (sat f) :=
    fun post hpost => matching_single sat f [Clause.model] post rfl hpost rows
  have hcount : ((({ DB := tableStore sat sortRows } : BaseRepository F Row (List Row)).DB.Model.Where
      f).Count rows) = Except.ok ((rows.filter (sat f)).length : Int) := by
    simp only [GormDB.Count, GormDB.Where, GormDB.Model, tableStore]
    have := hm [] rfl
    simp only [List.nil_append, List.singleton_append] at this ⊢
    rw [this]
  rw [hpaged _ _ _ _ hcount]
  simp only [tableStore, listResult, List.nil_append, List.cons_append, List.append_assoc]
  rcases horders with rfl | ⟨o, rfl⟩
  · have hmat := hm [Clause.offset (intMul p.Page p.Size), Clause.limit p.Size,
      Clause.withContext ctx, Clause.preload Associations] rfl
    simp only [List.singleton_append] at hmat
    simp only [List.map_nil, List.nil_append]
    rw [hmat]
    have hord : ordersOf [Clause.model, Clause.filter f, Clause.offset (intMul p.Page p.Size),
        Clause.limit p.Size, Clause.withContext ctx, Clause.preload Associations] = [] := rfl
    have hoff : offsetOf [Clause.model, Clause.filter f, Clause.offset (intMul p.Page p.Size),
        Clause.limit p.Size, Clause.withContext ctx, Clause.preload Associations]
        = some (intMul p.Page p.Size) := rfl
    have hlim : limitOf [Clause.model, Clause.filter f, Clause.offset (intMul p.Page p.Size),
        Clause.limit p.Size, Clause.withContext ctx, Clause.preload Associations]
        = some p.Size := rfl
    rw [hord, hoff, hlim, cutRows_of_pos _ hsize]
  · have hmat := hm [Clause.offset (intMul p.Page p.Size), Clause.limit p.Size,
      Clause.order o, Clause.withContext ctx, Clause.preload Associations] rfl
    simp only [List.singleton_append] at hmat
    simp only [List.map_cons, List.map_nil, List.cons_append, List.nil_append]
    rw [hmat]
    have hord : ordersOf [Clause.model, Clause.filter f, Clause.offset (intMul p.Page p.Size),
        Clause.limit p.Size, Clause.order o, Clause.withContext ctx,
        Clause.preload Associations] = [o] := rfl
    have hoff : offsetOf [Clause.model, Clause.filter f, Clause.offset (intMul p.Page p.Size),
        Clause.limit p.Size, Clause.order o, Clause.withContext ctx,
        Clause.preload Associations] = some (intMul p.Page p.Size) := rfl
    have hlim : limitOf [Clause.model, Clause.filter f, Clause.offset (intMul p.Page p.Size),
        Clause.limit p.Size, Clause.order o, Clause.withContext ctx,
        Clause.preload Associations] = some p.Size := rfl
    rw [hord, hoff, hlim, cutRows_of_pos _ hsize]

theorem getList_tableStore_unsorted {F Row : Type} [DecidableEq Row] (sat : F → Row → Bool)
    (sortRows : List String → List Row → List Row) (ctx : Context) (f : F)
    (rows : List Row) (p : PagingQuery) (hsize : 0 < p.Size)
    (hp : p.OrderBy = none ∨ p.OrderBy = some "") :
    BaseRepository.GetList { DB := tableStore sat sortRows } ctx f (some p) rows =
      Outcome.ok (((rows.filter (sat f)).length : Int),
        (skipRows (some (intMul p.Page p.Size)) (rows.filter (sat f))).take p.Size.toNat,
        none) := by
  have h := getList_tableStore sat sortRows ctx f rows p hsize [] (Or.inl rfl)
    (fun S r s total hc => by
      simpa using getList_paged_unsorted r ctx f s total hc p hp)
  simpa [ordered] using h

theorem getList_tableStore_sorted {F Row : Type} [DecidableEq Row] (sat : F → Row → Bool)
    (sortRows : List String → List Row → List Row) (ctx : Context) (f : F)
    (rows : List Row) (p : PagingQuery) (hsize : 0 < p.Size) (field dir : String)
    (hf : p.OrderBy = some field) (hne : field ≠ "") (hd : p.SortBy = some dir) :
    BaseRepository.GetList { DB := tableStore sat sortRows } ctx f (some p) rows =
      Outcome.ok (((rows.filter (sat f)).length : Int),
        (skipRows (some (intMul p.Page p.Size))
          (sortRows [field ++ " " ++ (if dir = "" then "asc" else dir)]
            (rows.filter (sat f)))).take p.Size.toNat, none) := by
  have h := getList_tableStore sat sortRows ctx f rows p hsize
    [field ++ " " ++ (if dir = "" then "asc" else dir)] (Or.inr ⟨_, rfl⟩)
    (fun S r s total hc => by
      simpa using getList_paged_sorted r ctx f s total hc p field dir hf hne hd)
  simpa [ordered] using h

theorem skipRows_of_fits {Row : Type} (p : PagingQuery) (hpage : 0 ≤ p.Page)
    (hsize : 0 < p.Size) (hfit : p.Page * p.Size < 2 ^ 63) (rows : List Row) :
    skipRows (some (intMul p.Page p.Size)) rows = rows.drop (p.Page * p.Size).toNat := by
  have hprod : 0 ≤ p.Page * p.Size := Int.mul_nonneg hpage (le_of_lt hsize)
  have hmul : intMul p.Page p.Size = p.Page * p.Size :=
    wrapInt_of_fits _ (le_trans (by norm_num) hprod) hfit
  rw [hmul, skipRows_of_nonneg _ hprod]

/-- C1, as amended. Over the table store, for every table, filter and paging query with
`0 < Size`: (1) unless a non-empty sort field comes with a nil direction, `GetList` returns
the number of rows matching the filter as total, the same for every `Page` and `Size`, no
error, and at most `Size` items; (2) whenever it returns a result at all, that result has
this total and at most `Size` items; (3) when moreover `0 ≤ Page` and `Page * Size < 2 ^ 63`
(the product fits a Go `int`), the items are, without a sort field, the rows at positions
`Page * Size .. Page * Size + Size - 1` of the filtered set and, (4) with a sort field and
a non-nil direction, those positions of the filtered set in the requested order. -/
theorem C1_getlist_page {F Row : Type} [DecidableEq Row] (sat : F → Row → Bool)
    (sortRows : List String → List Row → List Row) (ctx : Context) (f : F)
    (rows : List Row) (p : PagingQuery) (hsize : 0 < p.Size) :
    (p.OrderBy = none ∨ p.OrderBy = some "" ∨ p.SortBy ≠ none →
        ∃ items : List Row,
          BaseRepository.GetList { DB := tableStore sat sortRows } ctx f (some p) rows =
            Outcome.ok (((rows.filter (sat f)).length : Int), items, none) ∧
          (items.length : Int) ≤ p.Size) ∧
      (∀ (total : Int) (items : List Row) (err : Option GoError),
        BaseRepository.GetList { DB := tableStore sat sortRows } ctx f (some p) rows =
          Outcome.ok (total, items, err) →
        total = ((rows.filter (sat f)).length : Int) ∧ (items.length : Int) ≤ p.Size ∧
          err = none) ∧
      (0 ≤ p.Page → p.Page * p.Size < 2 ^ 63 → p.OrderBy = none ∨ p.OrderBy = some "" →
        BaseRepository.GetList { DB := tableStore sat sortRows } ctx f (some p) rows =
          Outcome.ok (((rows.filter (sat f)).length : Int),
            ((rows.filter (sat f)).drop (p.Page * p.Size).toNat).take p.Size.toNat, none)) ∧
      (0 ≤ p.Page → p.Page * p.Size < 2 ^ 63 →
        ∀ field dir : String, p.OrderBy = some field → field ≠ "" → p.SortBy = some dir →
        BaseRepository.GetList { DB := tableStore sat sortRows } ctx f (some p) rows =
          Outcome.ok (((rows.filter (sat f)).length : Int),
            ((sortRows [field ++ " " ++ (if dir = "" then "asc" else dir)]
              (rows.filter (sat f))).drop (p.Page * p.Size).toNat).take p.Size.toNat,
            none)) := by
  have hlen : ∀ xs : List Row, ((xs.take p.Size.toNat).length : Int) ≤ p.Size := by
    intro xs
    have h1 : (xs.take p.Size.toNat).length ≤ p.Size.toNat := List.length_take_le _ _
    have h2 : ((p.Size.toNat : Nat) : Int) = p.Size := Int.toNat_of_nonneg (le_of_lt hsize)
    omega
  have hcount : ((({ DB := tableStore sat sortRows } :
      BaseRepository F Row (List Row)).DB.Model.Where f).Count rows) =
      Except.ok (((matching sat [Clause.model, Clause.filter f] rows).length : Int)) := rfl
  have hcases : (∃ items : List Row,
        BaseRepository.GetList { DB := tableStore sat sortRows } ctx f (some p) rows =
          Outcome.ok (((rows.filter (sat f)).length : Int), items, none) ∧
        (items.length : Int) ≤ p.Size) ∨
      BaseRepository.GetList { DB := tableStore sat sortRows } ctx f (some p) rows =
        Outcome.fault ∧ ¬ (p.OrderBy = none ∨ p.OrderBy = some "" ∨ p.SortBy ≠ none) := by
    cases hob : p.OrderBy with
    | none =>
        exact Or.inl ⟨_, getList_tableStore_unsorted sat sortRows ctx f rows p hsize
          (Or.inl hob), hlen _⟩
    | some field =>
        by_cases hne : field = ""
        · subst hne
          exact Or.inl ⟨_, getList_tableStore_unsorted sat sortRows ctx f rows p hsize
            (Or.inr hob), hlen _⟩
        · cases hsb : p.SortBy with
          | none =>
              refine Or.inr ⟨getList_nil_direction _ ctx f rows _ hcount p field hob hne hsb,
                ?_⟩
              simp [hne]
          | some dir =>
              exact Or.inl ⟨_, getList_tableStore_sorted sat sortRows ctx f rows p hsize
                field dir hob hne hsb, hlen _⟩
  refine ⟨?_, ?_, ?_, ?_⟩
  · intro hok
    rcases hcases with h | ⟨_, hno⟩
    · exact h
    · exact absurd hok hno
  · intro total items err hres
    rcases hcases with ⟨items0, heq, hle⟩ | ⟨hfault, _⟩
    · rw [heq] at hres
      simp only [Outcome.ok.injEq, Prod.mk.injEq] at hres
      obtain ⟨h1, h2, h3⟩ := hres
      subst h1 h2 h3
      exact ⟨rfl, hle, rfl⟩
    · rw [hfault] at hres
      exact absurd hres (by simp)
  · intro hpage hfit hp
    rw [getList_tableStore_unsorted sat sortRows ctx f rows p hsize hp,
      skipRows_of_fits p hpage hsize hfit]
  · intro hpage hfit field dir hf hne hd
    rw [getList_tableStore_sorted sat sortRows ctx f rows p hsize field dir hf hne hd,
      skipRows_of_fits p hpage hsize hfit]

/-- C1 as amended, on the scenario of the specification: over 47 matching rows, the
default paging query (page 0 of size 25) gives total 47 and the 25 rows 0..24, and page 1
gives total 47 and the 22 rows 25..46. -/
theorem C1_getlist_page_witness :
    (0 < NewPagingQuery.Size ∧ 0 ≤ NewPagingQuery.Page ∧
        NewPagingQuery.Page * NewPagingQuery.Size < 2 ^ 63) ∧
      numberRepo.GetList 0 () (some NewPagingQuery) (List.range 47) =
        Outcome.ok (47, List.range 25, none) ∧
      numberRepo.GetList 0 () (some pagingSecond) (List.range 47) =
        Outcome.ok (47, (List.range 47).drop 25, none) ∧
      ((List.range 47).drop 25).length = 22 :=
  ⟨by decide,
    (C1_getlist_page (fun _ _ => true) (fun _ rows => rows.reverse) 0 () (List.range 47)
      NewPagingQuery (by decide)).2.2.1 (by decide) (by decide) (Or.inl rfl),
    (C1_getlist_page (fun _ _ => true) (fun _ rows => rows.reverse) 0 () (List.range 47)
      pagingSecond (by decide)).2.2.1 (by decide) (by decide) (Or.inl rfl),
    by decide⟩

/-- C1 as stated fails. With `Page = 2 ^ 62` and `Size = 4` (both Go `int` values, `Page ≥ 0`
and `Size > 0`) the product `Page * Size` wraps to 0: `GetList` returns the first rows of the
three-row table, while the positions `Page * Size ..` of the filtered set hold no row. -/
theorem C1_counterexample :
    0 ≤ pagingWrapped.Page ∧ pagingWrapped.Page < 2 ^ 63 ∧ 0 < pagingWrapped.Size ∧
      numberRepo.GetList 0 () (some pagingWrapped) [10, 20, 30] =
        Outcome.ok (3, [10, 20, 30], none) ∧
      (([10, 20, 30] : List Nat).drop (pagingWrapped.Page * pagingWrapped.Size).toNat).take
        pagingWrapped.Size.toNat = [] := by
  decide

/-! ## repository.go: QueryBuilder -/

theorem queryBuilder_nil {F Row S : Type} (r : BaseRepository F Row S) (q : GormDB F Row S) :
    r.QueryBuilder q GoValue.invalid = Outcome.ok q := by
  simp [BaseRepository.QueryBuilder, GoValue.Kind]

theorem queryBuilder_not_map {F Row S : Type} (r : BaseRepository F Row S)
    (q : GormDB F Row S) (options : GoValue) (h : options.Kind ≠ Kind.Map) :
    r.QueryBuilder q options = Outcome.ok q := by
  simp [BaseRepository.QueryBuilder, h]

theorem queryBuilder_preloadOptions {F Row S : Type} (r : BaseRepository F Row S)
    (q : GormDB F Row S) (names : List String) :
    r.QueryBuilder q (preloadOptions names) = Outcome.ok (names.foldl GormDB.Preload q) := by
  simp [BaseRepository.QueryBuilder, BaseRepository.QueryBuilder.keys, preloadOptions,
    GoValue.Kind, GoValue.MapEntries, GoKey.is, GoValue.Elem, GoValue.Elems, List.foldl_map,
    GoValue.String]

theorem queryBuilder_joinOptions {F Row S : Type} (r : BaseRepository F Row S)
    (q : GormDB F Row S) (names : List String) :
    r.QueryBuilder q (joinOptions names) = Outcome.ok (names.foldl GormDB.Joins q) := by
  simp [BaseRepository.QueryBuilder, BaseRepository.QueryBuilder.keys, joinOptions,
    GoValue.Kind, GoValue.MapEntries, GoKey.is, GoValue.Elem, GoValue.Elems, List.foldl_map,
    GoValue.String]

theorem suppliedName_strings (names : List String) :
    suppliedNameList (names.map (GoValue.str "string")) = some names := by
  induction names with
  | nil => rfl
  | cons n rest ih => simp [suppliedNameList, suppliedName, ih]

/-- On a slice of strings the code does what the reference of C7 says, for `preload` and
for `join`. -/
theorem queryBuilder_refines_on_string_slices {F Row S : Type} (r : BaseRepository F Row S)
    (q : GormDB F Row S) (names : List String) :
    r.QueryBuilder q (preloadOptions names) =
        Outcome.ok (QueryBuilderReference q (preloadOptions names)) ∧
      r.QueryBuilder q (joinOptions names) =
        Outcome.ok (QueryBuilderReference q (joinOptions names)) := by
  constructor
  · rw [queryBuilder_preloadOptions]
    simp [QueryBuilderReference, preloadOptions, GoKey.is, suppliedNames,
      suppliedName_strings]
  · rw [queryBuilder_joinOptions]
    simp [QueryBuilderReference, joinOptions, GoKey.is, suppliedNames, suppliedName_strings]

/-- C7, at the failing inputs. For `{"preload": []interface{}{"A"}}` the code requests the
eager-load of the placeholder `<interface {} Value>` where the reference of the claim
requests `A`, the name the caller supplied; for the typed map `map[string][]string` with
the same content the code faults where the reference requests `A`. -/
theorem C7_supplied_name_lost {F Row S : Type} (r : BaseRepository F Row S)
    (q : GormDB F Row S) :
    r.QueryBuilder q preloadAnyOptions =
        Outcome.ok (q.Preload "<interface \x7b\x7d Value>") ∧
      QueryBuilderReference q preloadAnyOptions = q.Preload "A" ∧
      r.QueryBuilder q preloadTypedOptions = Outcome.fault ∧
      QueryBuilderReference q preloadTypedOptions = q.Preload "A" := by
  refine ⟨?_, ?_, ?_, ?_⟩
  · simp [BaseRepository.QueryBuilder, BaseRepository.QueryBuilder.keys, preloadAnyOptions,
      GoValue.Kind, GoValue.MapEntries, GoKey.is, GoValue.Elem, GoValue.Elems, GoValue.String]
  · simp [QueryBuilderReference, preloadAnyOptions, GoKey.is, suppliedNames, suppliedName,
      suppliedNameList]
  · simp [BaseRepository.QueryBuilder, BaseRepository.QueryBuilder.keys, preloadTypedOptions,
      GoValue.Kind, GoValue.MapEntries, GoKey.is, GoValue.Elem]
  · simp [QueryBuilderReference, preloadTypedOptions, GoKey.is, suppliedNames, suppliedName,
      suppliedNameList]

/-- C8. For every query `q` and relation names `A`, `B`, `C`: augmenting with
`{"preload": [A, B]}` then `{"join": [C]}`, and augmenting in the reverse order, both
succeed; each result keeps the executors and every clause of `q`, unchanged and in place,
and adds exactly the eager-loads of `A` and `B` and the join on `C`; the two statements
hold the same clauses (they are permutations of one another). -/
theorem C8_augmentation_commutes {F Row S : Type} (r : BaseRepository F Row S)
    (q : GormDB F Row S) (A B C : String) :
    (r.QueryBuilder q (preloadOptions [A, B])).bind
        (fun q1 => r.QueryBuilder q1 (joinOptions [C])) =
        Outcome.ok { q with Statement :=
          q.Statement ++ [Clause.preload A, Clause.preload B, Clause.joins C] } ∧
      (r.QueryBuilder q (joinOptions [C])).bind
        (fun q1 => r.QueryBuilder q1 (preloadOptions [A, B])) =
        Outcome.ok { q with Statement :=
          q.Statement ++ [Clause.joins C, Clause.preload A, Clause.preload B] } ∧
      (q.Statement ++ [Clause.preload A, Clause.preload B, Clause.joins C]).Perm
        (q.Statement ++ [Clause.joins C, Clause.preload A, Clause.preload B]) := by
  refine ⟨?_, ?_, ?_⟩
  · rw [queryBuilder_preloadOptions]
    simp only [Outcome.bind]
    rw [queryBuilder_joinOptions]
    simp [GormDB.Preload, GormDB.Joins]
  · rw [queryBuilder_joinOptions]
    simp only [Outcome.bind]
    rw [queryBuilder_preloadOptions]
    simp [GormDB.Preload, GormDB.Joins]
  · apply List.Perm.append_left
    exact @List.perm_append_comm _ [Clause.preload A, Clause.preload B] [Clause.joins C]

/-! ## service.go -/

/-- C4. For every repository and id, when `Repository.Get` fails with `err`: if `err` is
or wraps record-not-found, `BaseService.Get` returns `(nil, nil)` and `BaseService.Delete`
returns `(false, nil)`; otherwise they return `(nil, err)` and `(false, err)`. In both
cases the journal of the repository holds the one call `Get id`: `Repository.Delete` is
not called. -/
theorem C4_get_failure {T ID F R Dto J : Type} [Inhabited Dto] (svc : BaseService T ID F R)
    (json : Json T Dto J) (ctx : Context) (id : ID) (st st1 : R) (entity : Option T)
    (err : GoError) (hget : svc.BaseRepository.Get ctx id st = ((entity, some err), st1)) :
    svc.recording.Get json ctx id (st, []) =
        (if errorsIs err ErrRecordNotFound then ((none, none), (st1, [Call.Get id]))
          else ((none, some err), (st1, [Call.Get id]))) ∧
      svc.recording.Delete ctx id (st, []) =
        (if errorsIs err ErrRecordNotFound then ((false, none), (st1, [Call.Get id]))
          else ((false, some err), (st1, [Call.Get id]))) := by
  constructor
  · simp only [BaseService.Get, BaseService.recording, IBaseRepository.recording, hget]
    split <;> simp
  · simp only [BaseService.Delete, BaseService.recording, IBaseRepository.recording, hget]
    split <;> simp

/-- C4 on the repository of users: the id `9` is unknown, `Get` fails with
record-not-found. -/
theorem C4_get_failure_witness :
    userRepo.Get 0 "9" [storedUser] = ((some default, some ErrRecordNotFound), [storedUser]) ∧
      (BaseService.recording { BaseRepository := userRepo }).Get userJson 0 "9"
          ([storedUser], []) = ((none, none), ([storedUser], [Call.Get "9"])) ∧
      (BaseService.recording { BaseRepository := userRepo }).Delete 0 "9"
          ([storedUser], []) = ((false, none), ([storedUser], [Call.Get "9"])) :=
  ⟨rfl, C4_get_failure { BaseRepository := userRepo } userJson 0 "9" [storedUser] [storedUser]
    (some default) ErrRecordNotFound rfl⟩

/-- C5, as amended. For every repository and id for which `Repository.Get` succeeds with
`entity`, `BaseService.Delete` calls `Repository.Delete` once, on `entity`; when that call
returns `(b, nil)` the service returns `(true, nil)` whatever `b` is, and when it returns
`(b, err)` with a non-nil `err` the service returns `(false, err)`. So the service returns
the boolean of `Repository.Delete` exactly when that boolean is true if and only if the
error is nil. -/
theorem C5_delete_delegates {T ID F R : Type} (svc : BaseService T ID F R) (ctx : Context)
    (id : ID) (st st1 st2 : R) (entity : Option T) (b : Bool) (derr : Option GoError)
    (hget : svc.BaseRepository.Get ctx id st = ((entity, none), st1))
    (hdel : svc.BaseRepository.Delete ctx entity st1 = ((b, derr), st2)) :
    svc.recording.Delete ctx id (st, []) =
        ((derr.isNone, derr), (st2, [Call.Get id, Call.Delete entity])) ∧
      ((svc.Delete ctx id st).1.1 = b ↔ (b = true ↔ derr = none)) := by
  constructor
  · simp only [BaseService.Delete, BaseService.recording, IBaseRepository.recording, hget,
      hdel]
    cases derr <;> simp
  · simp only [BaseService.Delete, hget, hdel]
    cases derr <;> cases b <;> simp

/-- C5 as amended, on the repository of users: deleting the stored user `7`. -/
theorem C5_delete_delegates_witness :
    (userRepo.Get 0 "7" [storedUser] = ((some storedUser, none), [storedUser]) ∧
        userRepo.Delete 0 (some storedUser) [storedUser] = ((true, none), [])) ∧
      (BaseService.recording { BaseRepository := userRepo }).Delete 0 "7" ([storedUser], []) =
        ((true, none), ([], [Call.Get "7", Call.Delete (some storedUser)])) :=
  ⟨⟨rfl, rfl⟩, (C5_delete_delegates { BaseRepository := userRepo } 0 "7" [storedUser]
    [storedUser] [] (some storedUser) true none rfl rfl).1⟩

/-- C5 as stated fails. Over a repository whose `Get` succeeds and whose `Delete` returns
`(false, nil)`, `BaseService.Delete` returns `(true, nil)`, not `(false, nil)`. -/
theorem C5_counterexample :
    idleDeleteRepo.Get 0 "7" [storedUser] = ((some storedUser, none), [storedUser]) ∧
      idleDeleteRepo.Delete 0 (some storedUser) [storedUser] = ((false, none), [storedUser]) ∧
      BaseService.Delete { BaseRepository := idleDeleteRepo } 0 "7" [storedUser] =
        ((true, none), [storedUser]) ∧
      BaseService.Delete { BaseRepository := idleDeleteRepo } 0 "7" [storedUser] ≠
        ((false, none), [storedUser]) := by
  refine ⟨rfl, rfl, rfl, ?_⟩
  decide

/-- The in-repository `BaseRepository.Delete` returns true exactly when it returns no
error. -/
theorem baseRepository_delete_flag {F Row S : Type} (r : BaseRepository F Row S)
    (ctx : Context) (t : Option Row) (s : S) :
    ((r.Delete ctx t s).1.1 = true ↔ (r.Delete ctx t s).1.2 = none) := by
  unfold BaseRepository.Delete
  split <;> simp

theorem eachInOrder_of_forall₂ {A B C : Type} (f : A → Except GoError B)
    (g : B → Except GoError C) (xs : List A) (zs : List C)
    (h : List.Forall₂ (fun x z => ∃ y, f x = Except.ok y ∧ g y = Except.ok z) xs zs) :
    ∃ ys, eachInOrder f xs = Except.ok ys ∧ eachInOrder g ys = Except.ok zs := by
  induction h with
  | nil => exact ⟨[], rfl, rfl⟩
  | cons hxz _ ih =>
      obtain ⟨y, hf, hg⟩ := hxz
      obtain ⟨ys, hfs, hgs⟩ := ih
      exact ⟨y :: ys, by simp [eachInOrder, hf, hfs], by simp [eachInOrder, hg, hgs]⟩

theorem typeConverter_slice {T Dto J : Type} (json : Json T Dto J) (entities : List T)
    (dtos : List Dto)
    (h : List.Forall₂ (fun e d => ∃ b, json.Marshal e = Except.ok b ∧
      json.Unmarshal b = Except.ok d) entities dtos) :
    TypeConverter json.MarshalSlice json.UnmarshalSlice entities = (some dtos, none) := by
  obtain ⟨bs, h1, h2⟩ := eachInOrder_of_forall₂ json.Marshal json.Unmarshal entities dtos h
  simp [TypeConverter, Json.MarshalSlice, Json.UnmarshalSlice, h1, h2]

theorem service_getlist_conversion_error {T ID F R Dto B : Type} (svc : BaseService T ID F R)
    (Marshal : List T → Except GoError B) (Unmarshal : B → Except GoError (List Dto))
    (ctx : Context) (input : F) (query : Option PagingQuery) (st st1 : R)
    (total : Int) (entities : List T) (hne : entities ≠ []) (err : GoError)
    (hlist : svc.BaseRepository.GetList ctx input query st = ((total, entities, none), st1))
    (hconv : (TypeConverter Marshal Unmarshal entities).2 = some err) :
    svc.GetList Marshal Unmarshal ctx input query st =
      Outcome.ok (({ Total := total, Items := [] }, some err), st1) := by
  have hpos : entities.length > 0 := List.length_pos.2 hne
  simp only [BaseService.GetList, hlist, hpos, if_true]
  rcases hc : TypeConverter Marshal Unmarshal entities with ⟨d, e⟩
  rw [hc] at hconv
  simp only at hconv
  subst hconv
  cases d <;> rfl

/-- C9. For every filter and paging query: (1) when `Repository.GetList` succeeds with
`(total, entities)` and `dtos` is the projection of the entities, one Dto per entity in the
same order (each the JSON round trip of its entity), `BaseService.GetList` returns
`Total = total` and `Items = dtos`; (2) when the entities are empty it returns
`Total = total`, empty `Items` and no error whatever `json.Marshal` and `json.Unmarshal`
do, also when they fail on every input or produce items from nothing: `TypeConverter` is
not run; (3) when `Repository.GetList` fails with `err` it returns `err` with `Total = 0`
and no items; (4) on a non-empty list the converter is run: a failure of `json.Marshal`
is the error returned. -/
theorem C9_service_getlist {T ID F R Dto J B : Type} (svc : BaseService T ID F R)
    (json : Json T Dto J) (Marshal : List T → Except GoError B)
    (Unmarshal : B → Except GoError (List Dto)) (ctx : Context) (input : F)
    (query : Option PagingQuery) (st : R) :
    (∀ (total : Int) (entities : List T) (st1 : R) (dtos : List Dto),
        svc.BaseRepository.GetList ctx input query st = ((total, entities, none), st1) →
        List.Forall₂ (fun e d => ∃ b, json.Marshal e = Except.ok b ∧
          json.Unmarshal b = Except.ok d) entities dtos →
        svc.GetList json.MarshalSlice json.UnmarshalSlice ctx input query st =
          Outcome.ok (({ Total := total, Items := dtos }, none), st1)) ∧
      (∀ (total : Int) (st1 : R),
        svc.BaseRepository.GetList ctx input query st = ((total, [], none), st1) →
        svc.GetList Marshal Unmarshal ctx input query st =
          Outcome.ok (({ Total := total, Items := [] }, none), st1)) ∧
      (∀ (total : Int) (entities : List T) (err : GoError) (st1 : R),
        svc.BaseRepository.GetList ctx input query st = ((total, entities, some err), st1) →
        svc.GetList Marshal Unmarshal ctx input query st =
          Outcome.ok (({ Total := 0, Items := [] }, some err), st1)) ∧
      (∀ (total : Int) (entities : List T) (err : GoError) (st1 : R),
        svc.BaseRepository.GetList ctx input query st = ((total, entities, none), st1) →
        entities ≠ [] → Marshal entities = Except.error err →
        svc.GetList Marshal Unmarshal ctx input query st =
          Outcome.ok (({ Total := total, Items := [] }, some err), st1)) := by
  refine ⟨?_, ?_, ?_, ?_⟩
  · intro total entities st1 dtos hlist hproj
    simp only [BaseService.GetList, hlist]
    cases hproj with
    | nil => simp
    | cons hhead htail =>
        rw [typeConverter_slice json _ _ (List.Forall₂.cons hhead htail)]
        simp
  · intro total st1 hlist
    simp [BaseService.GetList, hlist]
  · intro total entities err st1 hlist
    simp [BaseService.GetList, hlist]
  · intro total entities err st1 hlist hne hfail
    exact service_getlist_conversion_error svc Marshal Unmarshal ctx input query st st1 total
      entities hne err hlist (by simp [TypeConverter, hfail])

/-- C9 on the repository of users: two stored users are listed as two Dtos in order; and
on the empty store a `json.Marshal` that fails on every input goes unnoticed, although
`TypeConverter` with it fails on the empty list too. -/
theorem C9_service_getlist_witness :
    userRepo.GetList 0 () (some NewPagingQuery) [storedUser, default] =
        ((2, [storedUser, default], none), [storedUser, default]) ∧
      BaseService.GetList { BaseRepository := userRepo } userJson.MarshalSlice
          userJson.UnmarshalSlice 0 () (some NewPagingQuery) [storedUser, default] =
        Outcome.ok (({ Total := 2, Items := [storedUser, default] }, none),
          [storedUser, default]) ∧
      BaseService.GetList { BaseRepository := userRepo } failingMarshal
          userJson.UnmarshalSlice 0 () (some NewPagingQuery) [] =
        Outcome.ok (({ Total := 0, Items := [] }, none), []) ∧
      TypeConverter failingMarshal userJson.UnmarshalSlice [] =
        (none, some (GoError.sentinel "json: unsupported value")) :=
  ⟨rfl, (C9_service_getlist { BaseRepository := userRepo } userJson failingMarshal
      userJson.UnmarshalSlice 0 () (some NewPagingQuery) [storedUser, default]).1 2
      [storedUser, default] [storedUser, default] [storedUser, default] rfl
      (List.Forall₂.cons ⟨storedUser, rfl, rfl⟩
        (List.Forall₂.cons ⟨default, rfl, rfl⟩ List.Forall₂.nil)),
    (C9_service_getlist { BaseRepository := userRepo } userJson failingMarshal
      userJson.UnmarshalSlice 0 () (some NewPagingQuery) []).2.1 0 [] rfl, rfl⟩

theorem decodeFields_lookup (src : GoStruct) (fields : List (String × FieldValue))
    (name : String) :
    (decodeFields src fields).1.lookup name =
      (fields.lookup name).map (fun dst => (decodeField name (src.sourceFor name) dst).1) := by
  induction fields with
  | nil => rfl
  | cons head rest ih =>
      obtain ⟨k, dst⟩ := head
      by_cases hk : name = k
      · subst hk
        simp [decodeFields, List.lookup]
      · have hne : (name == k) = false := by simpa using hk
        simp [decodeFields, List.lookup, hne, ih]

theorem decodeFields_no_error (src : GoStruct) (fields : List (String × FieldValue))
    (h : (decodeFields src fields).2 = none) (name : String) (dst : FieldValue)
    (hdst : fields.lookup name = some dst) :
    (decodeField name (src.sourceFor name) dst).2 = none := by
  induction fields with
  | nil => simp [List.lookup] at hdst
  | cons head rest ih =>
      obtain ⟨k, d⟩ := head
      simp only [decodeFields] at h
      by_cases hk : name = k
      · subst hk
        simp only [List.lookup, beq_self_eq_true, Option.some.injEq] at hdst
        subst hdst
        cases hfield : (decodeField name (src.sourceFor name) d).2 with
        | none => rfl
        | some err => rw [hfield] at h; simp at h
      · have hne : (name == k) = false := by simpa using hk
        simp only [List.lookup, hne] at hdst
        cases hfield : (decodeField k (src.sourceFor k) d).2 with
        | none =>
            rw [hfield] at h
            exact ih h hdst
        | some err => rw [hfield] at h; simp at h

/-- C6, as amended. For every stored entity `e` that `Repository.Get` returns for `id`
and every update `u`, with `m` the entity `BaseService.Update` obtains by decoding `u` onto
`e`: (1) `m` agrees with `e` on every field for which the decoder reads no value from `u`
(`u` has no field of that name, or holds a nil pointer there); (2) when the decode
succeeds, `Update` calls `Repository.Get` and then `Repository.Update` on `m`, `m` carries
the value of `u` on every field for which the decoder reads one (a plain field of `u`
always gives one, its zero value included), and when `Repository.Update` succeeds the
returned Dto is the decode of that entity, as the repository left it, onto a zero Dto. -/
theorem C6_update_merges {ID F R : Type} [Inhabited GoStruct]
    (svc : BaseService GoStruct ID F R) (zeroEntity : GoStruct) (ctx : Context) (id : ID)
    (u e : GoStruct) (st st1 : R)
    (hget : svc.BaseRepository.Get ctx id st = ((some e, none), st1)) :
    (∀ name : String, (u.sourceFor name).bind FieldValue.carried = none →
        (decodeStruct u e).1.fields.lookup name = e.fields.lookup name) ∧
      ((decodeStruct u e).2 = none →
        (svc.recording.Update (mapstructureDecode zeroEntity) ctx id u (st, [])).2.2 =
            [Call.Get id, Call.Update (some (decodeStruct u e).1)] ∧
          (∀ (name : String) (v : Scalar) (dst : FieldValue),
            (u.sourceFor name).bind FieldValue.carried = some v →
            e.fields.lookup name = some dst →
            (decodeStruct u e).1.fields.lookup name = some (dst.set v)) ∧
          (∀ (after : Option GoStruct) (st2 : R) (dto : GoStruct),
            svc.BaseRepository.Update ctx (some (decodeStruct u e).1) st1 =
              ((after, none), st2) →
            (mapstructureDecode zeroEntity).DecodeDto after default = (dto, none) →
            svc.Update (mapstructureDecode zeroEntity) ctx id u st = ((dto, none), st2))) := by
  refine ⟨?_, ?_⟩
  · intro name hnone
    simp only [decodeStruct]
    rw [decodeFields_lookup]
    cases hl : e.fields.lookup name with
    | none => rfl
    | some dst => simp [decodeField, hnone]
  · intro hdec
    have hdu : (mapstructureDecode zeroEntity).DecodeUpdate u (some e) =
        (some (decodeStruct u e).1, none) := by
      simp [mapstructureDecode, hdec]
    refine ⟨?_, ?_, ?_⟩
    · simp only [BaseService.Update, BaseService.recording, IBaseRepository.recording, hget,
        hdu]
      rcases hup : svc.BaseRepository.Update ctx (some (decodeStruct u e).1) st1 with
        ⟨⟨after, uerr⟩, st2⟩
      cases uerr with
      | some x => simp
      | none =>
          rcases hdd : (mapstructureDecode zeroEntity).DecodeDto after default with
            ⟨dto, derr⟩
          cases derr <;> simp [hdd]
    · intro name v dst hsome hl
      have hok := decodeFields_no_error u e.fields hdec name dst hl
      simp only [decodeStruct]
      rw [decodeFields_lookup, hl]
      simp only [decodeField, hsome] at hok ⊢
      by_cases hkind : v.kind = dst.kind
      · simp [hkind]
      · simp [hkind] at hok
    · intro after st2 dto hup hdd
      simp [BaseService.Update, hget, hdu, hup, hdd]

/-- C6 as amended, on the scenario of the specification with an UpdateDto of pointer
fields: `update(id, {name: "y"})`, `Status` nil, on `{id, name: "x", status: "active"}`
hands `{id, name: "y", status: "active"}` to `Repository.Update` and returns it as Dto. -/
theorem C6_update_merges_witness :
    (recordRepo.Get 0 "7" [storedRecord] = ((some storedRecord, none), [storedRecord]) ∧
        (decodeStruct renamePointers storedRecord).2 = none) ∧
      (decodeStruct renamePointers storedRecord).1 = renamedRecord ∧
      updateStored renamePointers =
        ((renamedRecord, none),
          ([renamedRecord], [Call.Get "7", Call.Update (some renamedRecord)])) ∧
      (updateStored renamePointers).2.2 =
        [Call.Get "7", Call.Update (some (decodeStruct renamePointers storedRecord).1)] :=
  ⟨⟨rfl, by decide⟩, by decide, by decide,
    ((@C6_update_merges String Unit (List GoStruct) ⟨zeroRecord⟩
      { BaseRepository := recordRepo } zeroRecord 0 "7" renamePointers storedRecord
      [storedRecord] [storedRecord] rfl).2 (by decide)).1⟩

/-- C6 as stated fails. With an UpdateDto of plain fields `Name` and `Status`,
`update(id, {name: "y"})` leaves `Status` unset, yet on the stored entity
`{id, name: "x", status: "active"}` the entity handed to `Repository.Update` and the Dto
returned have the status `""`, not `"active"`: the field is not preserved. And with an
UpdateDto whose `Name` is an int the decode fails: `Update` returns the error and
`Repository.Update` is not called. -/
theorem C6_counterexample :
    recordRepo.Get 0 "7" [storedRecord] = ((some storedRecord, none), [storedRecord]) ∧
      (updateStored renamePlain).2.2 =
        [Call.Get "7", Call.Update (some { fields :=
          [("ID", FieldValue.plain (Scalar.str "7")),
            ("Name", FieldValue.plain (Scalar.str "y")),
            ("Status", FieldValue.plain (Scalar.str ""))] })] ∧
      (updateStored renamePlain).1.1.fields.lookup "Status" =
        some (FieldValue.plain (Scalar.str "")) ∧
      storedRecord.fields.lookup "Status" = some (FieldValue.plain (Scalar.str "active")) ∧
      (updateStored renamePlain).1.1 ≠ renamedRecord ∧
      (updateStored renameMistyped).1.2 =
        some (GoError.sentinel "mapstructure: cannot decode Name") ∧
      (updateStored renameMistyped).2.2 = [Call.Get "7"] := by
  decide

end GoCommon
